import Mathlib

set_option linter.unusedVariables false
set_option linter.unnecessarySeqFocus false

/- Shallow embedding of the elf-parser module of the elf-explorer
   repository.

   Modelling conventions:
   - a JS Buffer of bytes is a List Nat (each element < 256 in practice);
   - JS strings obtained by utf8-decoding buffer ranges are modelled as the
     raw byte lists; the JS string length equals the byte count for ASCII
     content, which is the only content the concrete theorems below use;
   - Node Buffer multi-byte reads (readUInt16/32/BigUInt64, signed forms)
     throw a RangeError when the requested range exceeds the buffer; this
     is modelled with Except Unit, and the untouched body of parseElf
     propagates the exception;
   - a single-byte JS indexing access buf[pos] yields the byte when pos is
     in range and the value undefined otherwise; this is modelled with
     Option Nat;
   - JS Number arithmetic on the values occurring here is exact below 2^53
     and is modelled exactly on Nat; the loop bound produced by the float
     division size / entSize makes a for loop with test i < count run
     ceiling(size / entSize) times, modelled by jsLoopCount. -/

/-- Byte buffer: the JS Buffer handed to parseElf. -/
abbrev Buffer := List Nat

/-- Positional reader over the buffer, mirroring class Reader of the
source: fields buf, is64, isLE and the mutable cursor pos. -/
structure Reader where
  buf : Buffer
  is64 : Bool
  isLE : Bool
  pos : Nat
deriving Repr, DecidableEq

/-- Mirrors seek(pos) of the source: sets the cursor. -/
def Reader.seek (r : Reader) (p : Nat) : Reader := { r with pos := p }

/-- Mirrors u8(): return this.buf[this.pos++].  A JS index access past the
end yields undefined (modelled none) and the cursor is advanced anyway. -/
def Reader.u8 (r : Reader) : Option Nat × Reader :=
  (r.buf.get? r.pos, { r with pos := r.pos + 1 })

/-- Mirrors u16(): Node readUInt16LE/BE, which throws when pos + 2 exceeds
the buffer length; on success the cursor advances by 2. -/
def Reader.u16 (r : Reader) : Except Unit (Nat × Reader) :=
  if r.pos + 2 ≤ r.buf.length then
    let b0 := r.buf.getD r.pos 0
    let b1 := r.buf.getD (r.pos + 1) 0
    .ok ((if r.isLE then b0 + 2 ^ 8 * b1 else b1 + 2 ^ 8 * b0),
         { r with pos := r.pos + 2 })
  else .error ()

/-- Mirrors u32(): Node readUInt32LE/BE with its bounds check. -/
def Reader.u32 (r : Reader) : Except Unit (Nat × Reader) :=
  if r.pos + 4 ≤ r.buf.length then
    let b0 := r.buf.getD r.pos 0
    let b1 := r.buf.getD (r.pos + 1) 0
    let b2 := r.buf.getD (r.pos + 2) 0
    let b3 := r.buf.getD (r.pos + 3) 0
    .ok ((if r.isLE then b0 + 2 ^ 8 * b1 + 2 ^ 16 * b2 + 2 ^ 24 * b3
          else b3 + 2 ^ 8 * b2 + 2 ^ 16 * b1 + 2 ^ 24 * b0),
         { r with pos := r.pos + 4 })
  else .error ()

/-- Mirrors u64(): Node readBigUInt64LE/BE with its bounds check; the JS
bigint result is an exact Nat. -/
def Reader.u64 (r : Reader) : Except Unit (Nat × Reader) :=
  if r.pos + 8 ≤ r.buf.length then
    let b : Nat → Nat := fun i => r.buf.getD (r.pos + i) 0
    .ok ((if r.isLE then
            b 0 + 2 ^ 8 * b 1 + 2 ^ 16 * b 2 + 2 ^ 24 * b 3 +
            2 ^ 32 * b 4 + 2 ^ 40 * b 5 + 2 ^ 48 * b 6 + 2 ^ 56 * b 7
          else
            b 7 + 2 ^ 8 * b 6 + 2 ^ 16 * b 5 + 2 ^ 24 * b 4 +
            2 ^ 32 * b 3 + 2 ^ 40 * b 2 + 2 ^ 48 * b 1 + 2 ^ 56 * b 0),
         { r with pos := r.pos + 8 })
  else .error ()

/-- Mirrors addr(): u64 under the 64-bit configuration, u32 otherwise. -/
def Reader.addr (r : Reader) : Except Unit (Nat × Reader) :=
  if r.is64 then r.u64 else r.u32

/-- Mirrors off(): same body as addr() in the source. -/
def Reader.off (r : Reader) : Except Unit (Nat × Reader) :=
  if r.is64 then r.u64 else r.u32

/-- Mirrors xword(): same body as addr() in the source. -/
def Reader.xword (r : Reader) : Except Unit (Nat × Reader) :=
  if r.is64 then r.u64 else r.u32

/-- Mirrors sxword(): Node readBigInt64LE/BE (64-bit) or readInt32LE/BE
(32-bit); the signed value is the two-complement reading of the unsigned
assembly. -/
def Reader.sxword (r : Reader) : Except Unit (Int × Reader) :=
  if r.is64 then
    (r.u64).map (fun p =>
      ((if p.1 < 2 ^ 63 then (p.1 : Int) else (p.1 : Int) - 2 ^ 64), p.2))
  else
    (r.u32).map (fun p =>
      ((if p.1 < 2 ^ 31 then (p.1 : Int) else (p.1 : Int) - 2 ^ 32), p.2))

/-- Decidable equality for Except results, used to evaluate concrete
decodes. -/
instance instDecEqExcept {ε α : Type} [DecidableEq ε] [DecidableEq α] :
    DecidableEq (Except ε α)
  | .ok a, .ok b =>
    if h : a = b then .isTrue (by rw [h]) else .isFalse (by simp [h])
  | .ok _, .error _ => .isFalse (by simp)
  | .error _, .ok _ => .isFalse (by simp)
  | .error e, .error f =>
    if h : e = f then .isTrue (by rw [h]) else .isFalse (by simp [h])

/-- Parsing computations: the single Reader of parseElf threaded through
the decode, with Node read exceptions propagating (nothing catches them
in the source). -/
abbrev PM := StateT Reader (Except Unit)

/-- Lifted seek. -/
def seekPM (p : Nat) : PM Unit := fun r => .ok ((), r.seek p)

/-- Lifted u8. -/
def u8PM : PM (Option Nat) := fun r => .ok r.u8

/-- Lifted u16. -/
def u16PM : PM Nat := fun r => r.u16

/-- Lifted u32. -/
def u32PM : PM Nat := fun r => r.u32

/-- Lifted u64. -/
def u64PM : PM Nat := fun r => r.u64

/-- Lifted addr. -/
def addrPM : PM Nat := fun r => r.addr

/-- Lifted off. -/
def offPM : PM Nat := fun r => r.off

/-- Lifted xword. -/
def xwordPM : PM Nat := fun r => r.xword

/-- Lifted sxword. -/
def sxwordPM : PM Int := fun r => r.sxword

/-- Reads the is64 configuration of the reader (the closure variable is64
of the source). -/
def getIs64 : PM Bool := fun r => .ok (r.is64, r)

/-- Mirrors readCString(buf, offset): the bytes from offset up to but not
including the first NUL at or after offset, to the end of the buffer when
no NUL follows, and empty when offset is outside the buffer.  Node
buf.indexOf(0, offset) plus buf.toString of the range is exactly takeWhile
nonzero on the dropped prefix. -/
def readCString (buf : Buffer) (off : Nat) : List Nat :=
  (buf.drop off).takeWhile (fun b => b != 0)

/-- Number of iterations of the JS loop for (let i = 0; i < count; i++)
where count is the float division size / entSize: the ceiling of the exact
quotient (exact for the magnitudes handled here). -/
def jsLoopCount (size entSize : Nat) : Nat := (size + entSize - 1) / entSize

/-- ElfHeader of the source; cls stands for the source field named class
(a Lean keyword).  The version and osabi fields come from u8 reads and so
may hold the JS value undefined. -/
structure ElfHeader where
  cls : Nat
  data : Nat
  version : Option Nat
  osabi : Option Nat
  type : Nat
  machine : Nat
  entry : Nat
  phoff : Nat
  shoff : Nat
  flags : Nat
  ehsize : Nat
  phentsize : Nat
  phnum : Nat
  shentsize : Nat
  shnum : Nat
  shstrndx : Nat
deriving Repr, DecidableEq

/-- ProgramHeader of the source. -/
structure ProgramHeader where
  type : Nat
  flags : Nat
  offset : Nat
  vaddr : Nat
  paddr : Nat
  filesz : Nat
  memsz : Nat
  align : Nat
deriving Repr, DecidableEq

/-- SectionHeader of the source; name is the resolved section name as a
byte list. -/
structure SectionHeader where
  nameIdx : Nat
  name : List Nat
  type : Nat
  flags : Nat
  addr : Nat
  offset : Nat
  size : Nat
  link : Nat
  info : Nat
  addralign : Nat
  entsize : Nat
deriving Repr, DecidableEq

/-- ElfSymbol of the source; fileOffset and entSize stand for the source
fields prefixed with an underscore.  The info and other fields come from
u8 reads and so may hold the JS value undefined. -/
structure ElfSymbol where
  nameIdx : Nat
  name : List Nat
  value : Nat
  size : Nat
  info : Option Nat
  other : Option Nat
  shndx : Nat
  fileOffset : Nat
  entSize : Nat
deriving Repr, DecidableEq

/-- DynEntry of the source. -/
structure DynEntry where
  tag : Int
  val : Nat
  fileOffset : Nat
  entSize : Nat
deriving Repr, DecidableEq

/-- RelEntry of the source. -/
structure RelEntry where
  offset : Nat
  info : Nat
  addend : Option Int
  symbolName : Option (List Nat)
  fileOffset : Nat
  entSize : Nat
deriving Repr, DecidableEq

/-- StringEntry of the source: text, starting offset, and byte length
including the terminator (the source computes s.length + 1). -/
structure StringEntry where
  value : List Nat
  fileOffset : Nat
  length : Nat
deriving Repr, DecidableEq

/-- One symbol-table group of ElfFile.symbols; secName stands for the
source field named section (a Lean keyword). -/
structure SymGroup where
  secName : List Nat
  sectionOffset : Nat
  symbols : List ElfSymbol
deriving Repr, DecidableEq

/-- One relocation group of ElfFile.relocations. -/
structure RelGroup where
  secName : List Nat
  sectionOffset : Nat
  entries : List RelEntry
deriving Repr, DecidableEq

/-- One string-table group of ElfFile.stringTables. -/
structure StrGroup where
  secName : List Nat
  sectionOffset : Nat
  strings : List StringEntry
deriving Repr, DecidableEq

/-- ElfFile of the source. -/
structure ElfFile where
  header : ElfHeader
  programHeaders : List ProgramHeader
  sectionHeaders : List SectionHeader
  symbols : List SymGroup
  dynamicEntries : List DynEntry
  dynamicSectionOffset : Nat
  relocations : List RelGroup
  stringTables : List StrGroup
deriving Repr, DecidableEq

/-- The fifteen header values parseElf reads through the reader after the
class and data bytes. -/
structure HdrNums where
  version : Option Nat
  osabi : Option Nat
  type : Nat
  machine : Nat
  entry : Nat
  phoff : Nat
  shoff : Nat
  flags : Nat
  ehsize : Nat
  phentsize : Nat
  phnum : Nat
  shentsize : Nat
  shnum : Nat
  shstrndx : Nat
deriving Repr, DecidableEq

/-- The header reads of parseElf, in source order: seek 6, version, osabi,
seek 16, type, machine, a discarded u32, entry, phoff, shoff, flags,
ehsize, phentsize, phnum, shentsize, shnum, shstrndx. -/
def readHdr : PM HdrNums := do
  seekPM 6
  let version ← u8PM
  let osabi ← u8PM
  seekPM 16
  let etype ← u16PM
  let machine ← u16PM
  let _ ← u32PM
  let entry ← addrPM
  let phoff ← offPM
  let shoff ← offPM
  let flags ← u32PM
  let ehsize ← u16PM
  let phentsize ← u16PM
  let phnum ← u16PM
  let shentsize ← u16PM
  let shnum ← u16PM
  let shstrndx ← u16PM
  pure ⟨version, osabi, etype, machine, entry, phoff, shoff, flags,
        ehsize, phentsize, phnum, shentsize, shnum, shstrndx⟩

/-- Assembles the ElfHeader record of the source from the class byte, the
data byte and the remaining reads. -/
def mkHeader (elfClass elfData : Nat) (h : HdrNums) : ElfHeader :=
  ⟨elfClass, elfData, h.version, h.osabi, h.type, h.machine, h.entry,
   h.phoff, h.shoff, h.flags, h.ehsize, h.phentsize, h.phnum,
   h.shentsize, h.shnum, h.shstrndx⟩

/-- Program header table loop of parseElf: n remaining iterations, i the
current index; each iteration seeks phoff + i * phentsize and reads the
fields, with the 64-bit layout placing flags right after type and the
32-bit layout placing flags after memsz. -/
def phLoop (phoff phentsize : Nat) : Nat → Nat → PM (List ProgramHeader)
  | 0, _ => pure []
  | n + 1, i => do
    seekPM (phoff + i * phentsize)
    let ptype ← u32PM
    let is64 ← getIs64
    let pflags0 ← if is64 then u32PM else pure 0
    let poffset ← offPM
    let pvaddr ← addrPM
    let ppaddr ← addrPM
    let pfilesz ← xwordPM
    let pmemsz ← xwordPM
    let pflags ← if is64 then pure pflags0 else u32PM
    let palign ← xwordPM
    let rest ← phLoop phoff phentsize n (i + 1)
    pure (⟨ptype, pflags, poffset, pvaddr, ppaddr, pfilesz, pmemsz, palign⟩ :: rest)

/-- Section header table loop of parseElf, field order as in the source;
names are resolved afterwards, so name starts empty. -/
def shLoop (shoff shentsize : Nat) : Nat → Nat → PM (List SectionHeader)
  | 0, _ => pure []
  | n + 1, i => do
    seekPM (shoff + i * shentsize)
    let shnameIdx ← u32PM
    let shtype ← u32PM
    let shflags ← xwordPM
    let shaddr ← addrPM
    let shoffset ← offPM
    let shsize ← xwordPM
    let shlink ← u32PM
    let shinfo ← u32PM
    let shaddralign ← xwordPM
    let shentsize2 ← xwordPM
    let rest ← shLoop shoff shentsize n (i + 1)
    pure (⟨shnameIdx, [], shtype, shflags, shaddr, shoffset, shsize,
           shlink, shinfo, shaddralign, shentsize2⟩ :: rest)

/-- Placeholder section header for the guarded JS index accesses. -/
def shDefault : SectionHeader := ⟨0, [], 0, 0, 0, 0, 0, 0, 0, 0, 0⟩

/-- Section name resolution of parseElf: when shstrndx indexes into the
decoded table, every name is read from the designated string-table
section at its offset plus the per-section nameIdx. -/
def resolveNames (data : Buffer) (shstrndx : Nat)
    (shs : List SectionHeader) : List SectionHeader :=
  if shstrndx < shs.length then
    let strtabOff := (shs.getD shstrndx shDefault).offset
    shs.map (fun sh => { sh with name := readCString data (strtabOff + sh.nameIdx) })
  else shs

/-- Symbol entry loop of parseElf for one SYMTAB or DYNSYM section:
hasStr records whether the link target exists (JS strSec nonnull), strOff
its offset; each iteration seeks secOff + i * entSize and reads the
width-dependent field order, then resolves the name when hasStr holds. -/
def symLoop (data : Buffer) (hasStr : Bool) (strOff secOff entSize : Nat) :
    Nat → Nat → PM (List ElfSymbol)
  | 0, _ => pure []
  | n + 1, i => do
    let off := secOff + i * entSize
    seekPM off
    let is64 ← getIs64
    let sym ←
      if is64 then do
        let nameIdx ← u32PM
        let info ← u8PM
        let other ← u8PM
        let shndx ← u16PM
        let value ← addrPM
        let size ← xwordPM
        pure (⟨nameIdx, [], value, size, info, other, shndx, off, entSize⟩ : ElfSymbol)
      else do
        let nameIdx ← u32PM
        let value ← addrPM
        let size ← xwordPM
        let info ← u8PM
        let other ← u8PM
        let shndx ← u16PM
        pure (⟨nameIdx, [], value, size, info, other, shndx, off, entSize⟩ : ElfSymbol)
    let sym := if hasStr then { sym with name := readCString data (strOff + sym.nameIdx) } else sym
    let rest ← symLoop data hasStr strOff secOff entSize n (i + 1)
    pure (sym :: rest)

/-- ASCII bytes of the fallback group label .symtab. -/
def dotSymtab : List Nat := [0x2e, 0x73, 0x79, 0x6d, 0x74, 0x61, 0x62]

/-- ASCII bytes of the fallback group label .dynsym. -/
def dotDynsym : List Nat := [0x2e, 0x64, 0x79, 0x6e, 0x73, 0x79, 0x6d]

/-- Symbol tables pass of parseElf: one group per section of type SYMTAB
(2) or DYNSYM (11), entry size defaulting to 24 or 16 when the declared
entsize is zero, loop bound jsLoopCount sh.size entSize, link target
looked up by guarded index, group label falling back when the resolved
section name is empty. -/
def symSections (data : Buffer) (shsFull : List SectionHeader) :
    List SectionHeader → PM (List SymGroup)
  | [] => pure []
  | sh :: rest =>
    if sh.type = 2 ∨ sh.type = 11 then do
      let is64 ← getIs64
      let entSize := if sh.entsize = 0 then (if is64 then 24 else 16) else sh.entsize
      let count := jsLoopCount sh.size entSize
      let secOff := sh.offset
      let strSec := shsFull.get? sh.link
      let strOff := (strSec.map (fun s => s.offset)).getD 0
      let syms ← symLoop data strSec.isSome strOff secOff entSize count 0
      let label := if sh.name = [] then (if sh.type = 2 then dotSymtab else dotDynsym) else sh.name
      let restGroups ← symSections data shsFull rest
      pure (⟨label, secOff, syms⟩ :: restGroups)
    else symSections data shsFull rest

/-- Dynamic entry loop of parseElf for one DYNAMIC section: each
iteration seeks secOff + i * entSize, reads the signed tag and the
unsigned value, pushes the entry, and breaks after pushing a zero tag. -/
def dynLoop (secOff entSize : Nat) : Nat → Nat → PM (List DynEntry)
  | 0, _ => pure []
  | n + 1, i => do
    let off := secOff + i * entSize
    seekPM off
    let tag ← sxwordPM
    let val ← xwordPM
    let e : DynEntry := ⟨tag, val, off, entSize⟩
    if tag = 0 then
      pure [e]
    else do
      let rest ← dynLoop secOff entSize n (i + 1)
      pure (e :: rest)

/-- Dynamic sections pass of parseElf: entries of every section of type
DYNAMIC (6) are appended in order, entry size defaulting to 16 or 8 when
the declared entsize is zero, and dynamicSectionOffset retains the offset
of the last such section (initially 0). -/
def dynSections : List SectionHeader → List DynEntry × Nat → PM (List DynEntry × Nat)
  | [], acc => pure acc
  | sh :: rest, acc =>
    if sh.type = 6 then do
      let is64 ← getIs64
      let entSize := if sh.entsize = 0 then (if is64 then 16 else 8) else sh.entsize
      let count := jsLoopCount sh.size entSize
      let secOff := sh.offset
      let es ← dynLoop secOff entSize count 0
      dynSections rest (acc.1 ++ es, secOff)
    else dynSections rest acc

/-- Symbol index extraction of the relocation decoder: the source computes
info >> 32n under the 64-bit configuration and info >> 8n otherwise. -/
def relSymIdx (is64 : Bool) (info : Nat) : Nat :=
  if is64 then info / 2 ^ 32 else info / 2 ^ 8

/-- Placeholder symbol for the guarded JS index access in relLoop. -/
def symDefault : ElfSymbol := ⟨0, [], 0, 0, none, none, 0, 0, 0⟩

/-- Relocation entry loop of parseElf for one REL or RELA section: each
iteration seeks secOff + i * entSize, reads offset and info, reads the
signed addend only for RELA, and resolves the symbol name when the linked
symbol list exists and the extracted index is nonzero and in range. -/
def relLoop (symSyms : Option (List ElfSymbol)) (secOff entSize : Nat)
    (isRela : Bool) : Nat → Nat → PM (List RelEntry)
  | 0, _ => pure []
  | n + 1, i => do
    let off := secOff + i * entSize
    seekPM off
    let roffset ← addrPM
    let info ← xwordPM
    let addend ← if isRela then (do let a ← sxwordPM; pure (some a)) else pure none
    let is64 ← getIs64
    let symIdx := relSymIdx is64 info
    let symbolName : Option (List Nat) :=
      match symSyms with
      | some syms =>
        if 0 < symIdx ∧ symIdx < syms.length then some ((syms.getD symIdx symDefault).name)
        else none
      | none => none
    let rest ← relLoop symSyms secOff entSize isRela n (i + 1)
    pure (⟨roffset, info, addend, symbolName, off, entSize⟩ :: rest)

/-- Relocations pass of parseElf: one group per section of type RELA (4)
or REL (9), entry size defaulting to 24/16 (64-bit) or 12/8 (32-bit) when
the declared entsize is zero, and the linked symbol table found among the
already decoded groups by section name. -/
def relSections (shsFull : List SectionHeader) (symGroups : List SymGroup) :
    List SectionHeader → PM (List RelGroup)
  | [] => pure []
  | sh :: rest =>
    if sh.type = 4 ∨ sh.type = 9 then do
      let isRela := sh.type = 4
      let is64 ← getIs64
      let entSize :=
        if sh.entsize = 0 then
          (if is64 then (if isRela then 24 else 16) else (if isRela then 12 else 8))
        else sh.entsize
      let count := jsLoopCount sh.size entSize
      let secOff := sh.offset
      let symSec := shsFull.get? sh.link
      let symSyms : Option (List ElfSymbol) :=
        match symSec with
        | some ss => (symGroups.find? (fun g => g.secName == ss.name)).map (fun g => g.symbols)
        | none => none
      let entries ← relLoop symSyms secOff entSize isRela count 0
      let restGroups ← relSections shsFull symGroups rest
      pure (⟨sh.name, secOff, entries⟩ :: restGroups)
    else relSections shsFull symGroups rest

/-- Fuelled form of the string table walk: the loop advances pos by at
least one per iteration, so endPos - pos iterations always suffice and
the fuel never runs out when initialised that way. -/
def strWalkF (data : Buffer) (endPos : Nat) : Nat → Nat → List StringEntry
  | _, 0 => []
  | pos, fuel + 1 =>
    if pos < endPos then
      let s := readCString data pos
      let rest := strWalkF data endPos (pos + s.length + 1) fuel
      if s.length = 0 then rest else ⟨s, pos, s.length + 1⟩ :: rest
    else []

/-- String table walk of parseElf for one STRTAB section: while pos is
before endPos, read a NUL-terminated run from the whole buffer, emit it
when nonempty, and advance by its length plus one. -/
def strWalk (data : Buffer) (endPos : Nat) (pos : Nat) : List StringEntry :=
  strWalkF data endPos pos (endPos - pos)

/-- String tables pass of parseElf: one group per section of type STRTAB
(3), walking the range from the section offset over its declared size. -/
def strSections (data : Buffer) : List SectionHeader → List StrGroup
  | [] => []
  | sh :: rest =>
    if sh.type = 3 then
      ⟨sh.name, sh.offset, strWalk data (sh.offset + sh.size) sh.offset⟩ ::
        strSections data rest
    else strSections data rest

/-- Decode passes of parseElf in source order, run on the configured
reader: header fields, program header table, section header table,
section name resolution, then symbol, dynamic, relocation and string
table sections over the resolved section list. -/
def parseMain (data : Buffer) (elfClass elfData : Nat) : PM ElfFile := do
  let h ← readHdr
  let phs ← phLoop h.phoff h.phentsize h.phnum 0
  let shs0 ← shLoop h.shoff h.shentsize h.shnum 0
  let shs := resolveNames data h.shstrndx shs0
  let symGroups ← symSections data shs shs
  let dyn ← dynSections shs ([], 0)
  let relGroups ← relSections shs symGroups shs
  let strGroups := strSections data shs
  pure { header := mkHeader elfClass elfData h
         programHeaders := phs
         sectionHeaders := shs
         symbols := symGroups
         dynamicEntries := dyn.1
         dynamicSectionOffset := dyn.2
         relocations := relGroups
         stringTables := strGroups : ElfFile }

/-- Body of parseElf after the length and magic guards: configures the
reader from the class and data bytes (class equal to 2 selects 64-bit,
data equal to 1 selects little-endian, with no validation of other
values) and runs the decode passes.  The final reader is returned
alongside the model so that the effect of the decode on the buffer is
part of the result. -/
def parseBody (data : Buffer) : Except Unit (ElfFile × Reader) :=
  let elfClass := data.getD 4 0
  let elfData := data.getD 5 0
  let is64 : Bool := elfClass == 2
  let isLE : Bool := elfData == 1
  StateT.run (parseMain data elfClass elfData) (Reader.mk data is64 isLE 0)

/-- Magic test of parseElf: data[0] through data[3] must be 0x7f E L F; a
JS index access past the end yields undefined, which fails the equality
just as a wrong byte does. -/
def magicOk (data : Buffer) : Bool :=
  data.getD 0 0 == 0x7f && data.getD 1 0 == 0x45 &&
  data.getD 2 0 == 0x4c && data.getD 3 0 == 0x46

/-- Observable outcomes of a parseElf call: the null return (length or
magic guard), an uncaught Node read exception, or the decoded model. -/
inductive ParseOutcome where
  | nullResult : ParseOutcome
  | thrown : ParseOutcome
  | model : ElfFile → ParseOutcome
deriving Repr, DecidableEq

/-- parseElf of the source: null for a buffer shorter than 52 bytes, null
for a wrong magic, and otherwise the decoded model, with a Node read
exception escaping the call. -/
def parseElf (data : Buffer) : ParseOutcome :=
  if data.length < 52 then .nullResult
  else if !(magicOk data) then .nullResult
  else
    match parseBody data with
    | .ok (f, _) => .model f
    | .error _ => .thrown

/- Helper lemmas for stepping concrete runs of the state monad. -/

/-- Running a bind steps through the first computation and feeds its value
and state to the second. -/
lemma run_bind {α β : Type} (m : PM α) (f : α → PM β) (r : Reader) :
    StateT.run (m >>= f) r =
      Except.bind (StateT.run m r) (fun p => StateT.run (f p.1) p.2) := rfl

/-- Running a pure computation returns the value and leaves the state. -/
lemma run_pure {α : Type} (a : α) (r : Reader) :
    StateT.run (pure a : PM α) r = .ok (a, r) := rfl

/-- Bind on a successful Except applies the continuation. -/
lemma exc_bind_ok {α β : Type} (a : α) (g : α → Except Unit β) :
    Except.bind (Except.ok a) g = g a := rfl

/-- Bind on a failed Except propagates the failure. -/
lemma exc_bind_error {α β : Type} (e : Unit) (g : α → Except Unit β) :
    Except.bind (Except.error e : Except Unit α) g = .error e := rfl

/-- Running getIs64 reads the configuration and leaves the state. -/
lemma run_getIs64 (r : Reader) : StateT.run getIs64 r = .ok (r.is64, r) := rfl

/-- Running seekPM moves the cursor. -/
lemma run_seekPM (p : Nat) (r : Reader) :
    StateT.run (seekPM p) r = .ok ((), r.seek p) := rfl

/- Claim C2. -/

/-- C2: a buffer shorter than 52 bytes, or one whose first four bytes are
not 0x7f E L F, makes parseElf return null (the NotElf rejection) and
never a partial model. -/
theorem c2_theorem (data : Buffer)
    (h : data.length < 52 ∨ magicOk data = false) :
    parseElf data = .nullResult := by
  rcases h with h | h
  · rw [parseElf, if_pos h]
  · rw [parseElf]
    by_cases hl : data.length < 52
    · rw [if_pos hl]
    · rw [if_neg hl, h]
      rfl

/-- C2 witness: the empty buffer is shorter than 52 bytes and parseElf
rejects it with null. -/
theorem c2_witness : parseElf [] = .nullResult :=
  c2_theorem [] (Or.inl (by decide))

/- Claim C1. -/

/-- Concrete 52-byte buffer with a valid magic, class byte 3 (neither
1 nor 2) and data byte 1; every remaining header field is zero. -/
def c1buf : Buffer := [0x7f, 0x45, 0x4c, 0x46, 3, 1] ++ List.replicate 46 0

/-- Header values parseElf reads from c1buf. -/
def c1hdr : HdrNums := ⟨some 0, some 0, 0, 0, 0, 0, 0, 0, 0, 0, 0, 0, 0, 0⟩

/-- Model parseElf produces for c1buf: the class byte 3 is carried through
unvalidated and every table is empty. -/
def c1file : ElfFile :=
  { header := ⟨3, 1, some 0, some 0, 0, 0, 0, 0, 0, 0, 0, 0, 0, 0, 0, 0⟩
    programHeaders := []
    sectionHeaders := []
    symbols := []
    dynamicEntries := []
    dynamicSectionOffset := 0
    relocations := []
    stringTables := [] }

/-- Header stage of the c1buf decode. -/
lemma c1_stage_hdr : StateT.run readHdr (Reader.mk c1buf false true 0) =
    .ok (c1hdr, Reader.mk c1buf false true 52) := by decide

/-- Program header stage of the c1buf decode (zero entries). -/
lemma c1_stage_ph : StateT.run (phLoop 0 0 0 0) (Reader.mk c1buf false true 52) =
    .ok ([], Reader.mk c1buf false true 52) := by decide

/-- Section header stage of the c1buf decode (zero entries). -/
lemma c1_stage_sh : StateT.run (shLoop 0 0 0 0) (Reader.mk c1buf false true 52) =
    .ok ([], Reader.mk c1buf false true 52) := by decide

/-- Name resolution stage of the c1buf decode. -/
lemma c1_stage_names : resolveNames c1buf 0 ([] : List SectionHeader) = [] := by decide

/-- Symbol tables stage of the c1buf decode. -/
lemma c1_stage_sym : StateT.run (symSections c1buf [] []) (Reader.mk c1buf false true 52) =
    .ok ([], Reader.mk c1buf false true 52) := by decide

/-- Dynamic sections stage of the c1buf decode. -/
lemma c1_stage_dyn : StateT.run (dynSections [] ([], 0)) (Reader.mk c1buf false true 52) =
    .ok (([], 0), Reader.mk c1buf false true 52) := by decide

/-- Relocation sections stage of the c1buf decode. -/
lemma c1_stage_rel : StateT.run (relSections [] [] []) (Reader.mk c1buf false true 52) =
    .ok ([], Reader.mk c1buf false true 52) := by decide

/-- String table stage of the c1buf decode. -/
lemma c1_stage_str : strSections c1buf [] = [] := by decide

/-- Full decode of c1buf: parseBody succeeds with the empty model and the
final reader keeps the buffer. -/
lemma c1_body : parseBody c1buf = .ok (c1file, Reader.mk c1buf false true 52) := by
  have h4 : c1buf.getD 4 0 = 3 := by decide
  have h5 : c1buf.getD 5 0 = 1 := by decide
  rw [parseBody]
  simp only [h4, h5, show ((3 : Nat) == 2) = false from rfl,
    show ((1 : Nat) == 1) = true from rfl]
  simp only [parseMain, run_bind, run_pure, exc_bind_ok,
    c1_stage_hdr, c1_stage_ph, c1_stage_sh, c1_stage_names,
    c1_stage_sym, c1_stage_dyn, c1_stage_rel, c1_stage_str,
    c1hdr, mkHeader, c1file]

/-- C1 counterexample: a 52-byte buffer with valid magic and class byte 3
does not fail; parseElf returns a model whose header carries class 3, so
no UnsupportedVariant rejection exists for an invalid class byte. -/
theorem c1_counterexample : parseElf c1buf = .model c1file := by
  rw [parseElf, if_neg (by decide), show magicOk c1buf = true from by decide]
  simp only [Bool.not_true, Bool.false_eq_true, if_false, c1_body]

/-- C1 amended: class and data bytes outside 1 and 2 are not rejected;
for every buffer of at least 52 bytes with a valid magic, parseElf never
returns the null rejection (class different from 2 is simply decoded as
32-bit and data different from 1 as big-endian). -/
theorem c1_theorem (data : Buffer) (h1 : 52 ≤ data.length)
    (h2 : magicOk data = true) : parseElf data ≠ .nullResult := by
  rw [parseElf, if_neg (by omega), h2]
  simp only [Bool.not_true, Bool.false_eq_true, if_false]
  cases parseBody data with
  | ok p => simp
  | error e => simp

/-- C1 witness: c1buf satisfies the length and magic hypotheses, and the
amended theorem applies to it. -/
theorem c1_witness : parseElf c1buf ≠ .nullResult :=
  c1_theorem c1buf (by decide) (by decide)

/- Claim C3. -/

/-- Running the lifted u32 is the reader u32. -/
lemma run_u32PM (r : Reader) : StateT.run u32PM r = r.u32 := rfl

/-- Concrete 64-byte buffer: a valid 64-bit little-endian header declaring
one program header entry at offset 64, which lies entirely past the end of
the buffer. -/
def c3buf : Buffer :=
  [0x7f, 0x45, 0x4c, 0x46, 2, 1, 1, 0] ++ List.replicate 8 0 ++
  [0, 0, 0, 0] ++ [0, 0, 0, 0] ++
  List.replicate 8 0 ++
  [0x40, 0, 0, 0, 0, 0, 0, 0] ++
  List.replicate 8 0 ++
  [0, 0, 0, 0] ++
  [0x40, 0] ++ [0x38, 0] ++ [1, 0] ++
  [0, 0] ++ [0, 0] ++ [0, 0]

/-- Header values parseElf reads from c3buf. -/
def c3hdr : HdrNums := ⟨some 1, some 0, 0, 0, 0, 64, 0, 0, 64, 56, 1, 0, 0, 0⟩

/-- Header stage of the c3buf decode: succeeds. -/
lemma c3_stage_hdr : StateT.run readHdr (Reader.mk c3buf true true 0) =
    .ok (c3hdr, Reader.mk c3buf true true 64) := by decide

/-- Program header stage of the c3buf decode: the single entry read at
offset 64 exceeds the 64-byte buffer and the stage fails. -/
lemma c3_stage_ph : StateT.run (phLoop 64 56 1 0) (Reader.mk c3buf true true 64) =
    .error () := by decide

/-- C3 counterexample: c3buf has a successfully decoding header, and its
one program header entry would read past the end of the buffer; the
decode does not skip the entry and continue, it aborts as a whole with
the read exception and produces no model. -/
theorem c3_counterexample : parseElf c3buf = .thrown := by
  have h4 : c3buf.getD 4 0 = 2 := by decide
  have h5 : c3buf.getD 5 0 = 1 := by decide
  rw [parseElf, if_neg (by decide), show magicOk c3buf = true from by decide]
  simp only [Bool.not_true, Bool.false_eq_true, if_false]
  rw [parseBody]
  simp only [h4, h5, show ((2 : Nat) == 2) = true from rfl,
    show ((1 : Nat) == 1) = true from rfl]
  simp only [parseMain, run_bind, run_pure, exc_bind_ok, exc_bind_error,
    c3_stage_hdr, c3hdr, c3_stage_ph]

/-- C3 amended: a table entry that would read past the end of the buffer
aborts the loop with the read failure instead of being skipped; for the
program header loop, whenever the first field of the first entry already
exceeds the buffer, the whole loop fails. -/
theorem c3_theorem (phoff phentsize n : Nat) (r : Reader)
    (hb : r.buf.length < phoff + 4) :
    StateT.run (phLoop phoff phentsize (n + 1) 0) r = .error () := by
  have hc : ¬ (phoff + 4 ≤ r.buf.length) := by omega
  simp only [phLoop, run_bind, run_seekPM, exc_bind_ok, run_u32PM]
  simp [Reader.u32, Reader.seek, hc, exc_bind_error]

/-- C3 witness: the amended theorem applies to c3buf with its program
header table at offset 64 and one declared entry. -/
theorem c3_witness :
    StateT.run (phLoop 64 56 1 0) (Reader.mk c3buf true true 0) = .error () :=
  c3_theorem 64 56 0 (Reader.mk c3buf true true 0) (by decide)

/- Claim C4. -/

/-- C4 counterexample: the u8 read on an empty buffer at cursor 0 would
exceed the buffer, yet it does not fail with any out-of-bounds condition:
it produces the JS value undefined and still advances the cursor to 1. -/
theorem c4_counterexample :
    (Reader.u8 (Reader.mk [] false true 0)).1 = none ∧
    (Reader.u8 (Reader.mk [] false true 0)).2.pos = 1 := by decide

/-- C4 amended: the multi-byte reads u16, u32, u64, addr (addressSized)
and sxword (signedAddressSized) advance the cursor by exactly the bytes
consumed on success, leave the buffer unchanged, and fail when the read
would exceed the buffer; the single-byte u8 read does not fail: it always
advances the cursor by one and yields undefined exactly when the cursor
is past the end. -/
theorem c4_theorem (r : Reader) :
    ((r.u8).2.pos = r.pos + 1 ∧ ((r.u8).1 = none ↔ r.buf.length ≤ r.pos)) ∧
    (r.buf.length < r.pos + 2 → r.u16 = .error ()) ∧
    (r.pos + 2 ≤ r.buf.length →
      ∃ v r2, r.u16 = .ok (v, r2) ∧ r2.pos = r.pos + 2 ∧ r2.buf = r.buf) ∧
    (r.buf.length < r.pos + 4 → r.u32 = .error ()) ∧
    (r.pos + 4 ≤ r.buf.length →
      ∃ v r2, r.u32 = .ok (v, r2) ∧ r2.pos = r.pos + 4 ∧ r2.buf = r.buf) ∧
    (r.buf.length < r.pos + 8 → r.u64 = .error ()) ∧
    (r.pos + 8 ≤ r.buf.length →
      ∃ v r2, r.u64 = .ok (v, r2) ∧ r2.pos = r.pos + 8 ∧ r2.buf = r.buf) ∧
    (r.buf.length < r.pos + (if r.is64 then 8 else 4) → r.addr = .error ()) ∧
    (r.pos + (if r.is64 then 8 else 4) ≤ r.buf.length →
      ∃ v r2, r.addr = .ok (v, r2) ∧
        r2.pos = r.pos + (if r.is64 then 8 else 4) ∧ r2.buf = r.buf) ∧
    (r.buf.length < r.pos + (if r.is64 then 8 else 4) → r.sxword = .error ()) ∧
    (r.pos + (if r.is64 then 8 else 4) ≤ r.buf.length →
      ∃ v r2, r.sxword = .ok (v, r2) ∧
        r2.pos = r.pos + (if r.is64 then 8 else 4) ∧ r2.buf = r.buf) := by
  refine ⟨⟨rfl, ?_⟩, ?_, ?_, ?_, ?_, ?_, ?_, ?_, ?_, ?_, ?_⟩
  · simp [Reader.u8, List.get?_eq_none]
  · intro h; rw [Reader.u16, if_neg (by omega)]
  · intro h; rw [Reader.u16, if_pos h]; exact ⟨_, _, rfl, rfl, rfl⟩
  · intro h; rw [Reader.u32, if_neg (by omega)]
  · intro h; rw [Reader.u32, if_pos h]; exact ⟨_, _, rfl, rfl, rfl⟩
  · intro h; rw [Reader.u64, if_neg (by omega)]
  · intro h; rw [Reader.u64, if_pos h]; exact ⟨_, _, rfl, rfl, rfl⟩
  · intro h
    by_cases h64 : r.is64
    · rw [Reader.addr, if_pos h64, Reader.u64, if_neg (by simp [h64] at h; omega)]
    · rw [Reader.addr, if_neg h64, Reader.u32, if_neg (by simp [h64] at h; omega)]
  · intro h
    by_cases h64 : r.is64
    · rw [Reader.addr, if_pos h64, Reader.u64, if_pos (by simp [h64] at h; omega)]
      exact ⟨_, _, rfl, by simp [h64], rfl⟩
    · rw [Reader.addr, if_neg h64, Reader.u32, if_pos (by simp [h64] at h; omega)]
      exact ⟨_, _, rfl, by simp [h64], rfl⟩
  · intro h
    by_cases h64 : r.is64
    · rw [Reader.sxword, if_pos h64, Reader.u64, if_neg (by simp [h64] at h; omega)]
      rfl
    · rw [Reader.sxword, if_neg h64, Reader.u32, if_neg (by simp [h64] at h; omega)]
      rfl
  · intro h
    by_cases h64 : r.is64
    · rw [Reader.sxword, if_pos h64, Reader.u64, if_pos (by simp [h64] at h; omega)]
      exact ⟨_, _, rfl, by simp [h64], rfl⟩
    · rw [Reader.sxword, if_neg h64, Reader.u32, if_pos (by simp [h64] at h; omega)]
      exact ⟨_, _, rfl, by simp [h64], rfl⟩

/-- C4 witness: at the two-byte buffer 9, 7 the u16 read fails from
cursor 1 (it would exceed the buffer) and succeeds from cursor 0,
advancing to 2 and keeping the buffer. -/
theorem c4_witness :
    (Reader.u16 (Reader.mk [9, 7] false true 1) = .error ()) ∧
    (∃ v r2, Reader.u16 (Reader.mk [9, 7] false true 0) = .ok (v, r2) ∧
      r2.pos = 0 + 2 ∧ r2.buf = [9, 7]) :=
  ⟨(c4_theorem (Reader.mk [9, 7] false true 1)).2.1 (by decide),
   (c4_theorem (Reader.mk [9, 7] false true 0)).2.2.1 (by decide)⟩

/- Claim C5. -/

/-- Linked symbol list with three distinct names a, b, c used to observe
which index the relocation decoder extracts. -/
def c5syms : List ElfSymbol :=
  [⟨0, [0x61], 0, 0, none, none, 0, 0, 0⟩,
   ⟨0, [0x62], 0, 0, none, none, 0, 0, 0⟩,
   ⟨0, [0x63], 0, 0, none, none, 0, 0, 0⟩]

/-- Eight bytes of one 32-bit REL entry: target offset 0 and packed info
0x102 in little-endian order. -/
def c5data : Buffer := [0, 0, 0, 0, 2, 1, 0, 0]

/-- C5 counterexample: decoding the 32-bit REL entry with packed info
0x102 resolves symbol index 1 (info shifted right by 8, name b), not the
low-order byte 2 (whose symbol has name c) demanded by the claim. -/
theorem c5_counterexample :
    StateT.run (relLoop (some c5syms) 0 8 false 1 0) (Reader.mk c5data false true 0) =
      .ok ([⟨0, 258, none, some [0x62], 0, 8⟩], Reader.mk c5data false true 8) ∧
    (c5syms.getD (258 % 2 ^ 8) symDefault).name = [0x63] := by decide

/-- C5 amended: the symbol index is taken from the high-order bits of the
packed info field at both widths: for a 32-bit file it is info shifted
right by 8 bits (the high 24 bits, not the low byte), and for a 64-bit
file info shifted right by 32 bits. -/
theorem c5_theorem (s t : Nat) :
    (t < 2 ^ 8 → relSymIdx false (s * 2 ^ 8 + t) = s) ∧
    (t < 2 ^ 32 → relSymIdx true (s * 2 ^ 32 + t) = s) := by
  constructor
  · intro h
    simp only [relSymIdx, Bool.false_eq_true, if_false]
    rw [Nat.mul_comm, Nat.mul_add_div (by norm_num), Nat.div_eq_of_lt h, Nat.add_zero]
  · intro h
    simp only [relSymIdx, if_true]
    rw [Nat.mul_comm, Nat.mul_add_div (by norm_num), Nat.div_eq_of_lt h, Nat.add_zero]

/-- C5 witness: the amended extraction rule evaluated at packed values
with symbol index 7 (32-bit) and 9 (64-bit). -/
theorem c5_witness :
    relSymIdx false (7 * 2 ^ 8 + 5) = 7 ∧ relSymIdx true (9 * 2 ^ 32 + 11) = 9 :=
  ⟨(c5_theorem 7 5).1 (by norm_num), (c5_theorem 9 11).2 (by norm_num)⟩

/- Claim C6. -/

/-- A takeWhile run is never longer than its list. -/
lemma takeWhile_len_le (p : Nat → Bool) (l : List Nat) :
    (l.takeWhile p).length ≤ l.length := by
  induction l with
  | nil => simp
  | cons a l ih =>
    rw [List.takeWhile_cons]
    cases p a <;> simp <;> omega

/-- Every entry the fuelled string walk emits lies inside the buffer: its
text is read from offsets below the buffer length. -/
lemma strWalkF_bound (data : Buffer) (endPos : Nat) :
    ∀ fuel pos e, e ∈ strWalkF data endPos pos fuel →
      e.fileOffset + e.value.length ≤ data.length := by
  intro fuel
  induction fuel with
  | zero => intro pos e he; simp [strWalkF] at he
  | succ fuel ih =>
    intro pos e he
    simp only [strWalkF] at he
    by_cases hlt : pos < endPos
    · rw [if_pos hlt] at he
      by_cases hz : (readCString data pos).length = 0
      · rw [if_pos hz] at he
        exact ih _ _ he
      · rw [if_neg hz] at he
        rcases List.mem_cons.mp he with hhd | htl
        · subst hhd
          have h1 : (readCString data pos).length ≤ data.length - pos := by
            have := takeWhile_len_le (fun b => b != 0) (data.drop pos)
            rw [readCString]
            simpa using this
          simp only []
          omega
        · exact ih _ _ htl
    · rw [if_neg hlt] at he
      simp at he

/-- C6 amended: string table decoding never reads past the end of the
buffer and never fails, but it can read past the declared extent of the
section: a run with no terminator before the section boundary is emitted
whole, truncated only at the buffer end.  Every emitted entry satisfies
the buffer bound. -/
theorem c6_theorem (data : Buffer) (endPos pos : Nat) (e : StringEntry)
    (he : e ∈ strWalk data endPos pos) :
    e.fileOffset + e.value.length ≤ data.length := by
  rw [strWalk] at he
  exact strWalkF_bound data endPos (endPos - pos) pos e he

/-- C6 witness: the amended bound applied to the walk of the two-byte
buffer 0x61, 0 over the range from 0 to 2, which emits one entry. -/
theorem c6_witness :
    (⟨[0x61], 0, 2⟩ : StringEntry).fileOffset +
      (⟨[0x61], 0, 2⟩ : StringEntry).value.length ≤ ([0x61, 0] : Buffer).length :=
  c6_theorem [0x61, 0] 2 0 ⟨[0x61], 0, 2⟩ (by decide)

/-- STRTAB section header whose extent is the four bytes from 8 to 12 of
c6buf. -/
def c6sh : SectionHeader := ⟨0, [], 3, 0, 0, 8, 4, 0, 0, 0, 0⟩

/-- Buffer whose STRTAB section bytes 8 to 11 hold a, b, c, d with no NUL
before the section boundary; the run continues with e and terminates only
at offset 13. -/
def c6buf : Buffer := List.replicate 8 0 ++ [0x61, 0x62, 0x63, 0x64, 0x65, 0]

/-- C6 counterexample: decoding the STRTAB section spanning bytes 8 to 12
of c6buf emits the run a, b, c, d, e read up to the NUL at offset 13,
which lies past the declared section extent; the run is not truncated at
the boundary. -/
theorem c6_counterexample :
    strSections c6buf [c6sh] =
      [⟨[], 8, [⟨[0x61, 0x62, 0x63, 0x64, 0x65], 8, 6⟩]⟩] ∧
    c6sh.offset + c6sh.size < 8 + [0x61, 0x62, 0x63, 0x64, 0x65].length := by
  decide


/- Claim C7. -/

/-- Inverts a successful bind into its two successful stages. -/
lemma bind_ok_elim {α β : Type} {m : PM α} {f : α → PM β} {r : Reader}
    {b : β} {r2 : Reader}
    (h : StateT.run (m >>= f) r = .ok (b, r2)) :
    ∃ a r1, StateT.run m r = .ok (a, r1) ∧ StateT.run (f a) r1 = .ok (b, r2) := by
  rw [run_bind] at h
  cases hm : StateT.run m r with
  | error e => rw [hm, exc_bind_error] at h; cases h
  | ok p =>
    rw [hm, exc_bind_ok] at h
    refine ⟨p.1, p.2, ?_, h⟩
    rfl

/-- A successful symbol loop of n iterations returns exactly n symbols. -/
lemma symLoop_len (data : Buffer) (hasStr : Bool) (strOff secOff entSize : Nat) :
    ∀ n i r syms r2,
      StateT.run (symLoop data hasStr strOff secOff entSize n i) r = .ok (syms, r2) →
      syms.length = n := by
  intro n
  induction n with
  | zero =>
    intro i r syms r2 h
    simp only [symLoop, run_pure, Except.ok.injEq, Prod.mk.injEq] at h
    rw [← h.1]
    rfl
  | succ n ih =>
    intro i r syms r2 h
    simp only [symLoop] at h
    obtain ⟨_, r1, _, h⟩ := bind_ok_elim h
    obtain ⟨is64v, rg, _, h⟩ := bind_ok_elim h
    cases is64v <;>
      (simp only [Bool.false_eq_true, if_false, if_true] at h
       obtain ⟨_, _, _, h⟩ := bind_ok_elim h
       obtain ⟨_, _, _, h⟩ := bind_ok_elim h
       obtain ⟨_, _, _, h⟩ := bind_ok_elim h
       obtain ⟨_, _, _, h⟩ := bind_ok_elim h
       obtain ⟨_, _, _, h⟩ := bind_ok_elim h
       obtain ⟨_, _, _, h⟩ := bind_ok_elim h
       obtain ⟨y, _, _, h⟩ := bind_ok_elim h
       obtain ⟨rest, r4, hrest, h⟩ := bind_ok_elim h
       simp only [run_pure, Except.ok.injEq, Prod.mk.injEq] at h
       rw [← h.1]
       simp [ih _ _ _ _ hrest])

/-- C7 amended: for a section of type SYMTAB or DYNSYM the entry size is
the declared entry size or the spec constant (24 bytes 64-bit, 16 bytes
32-bit) when the declared size is zero, and a successful decode of the
section produces ceiling(size / entrySize) symbol entries: when the size
is not a multiple of the entry size the JS float loop bound admits one
extra, partly out-of-range entry instead of truncating. -/
theorem c7_theorem (data : Buffer) (shsFull : List SectionHeader)
    (sh : SectionHeader) (r : Reader) (out : List SymGroup) (r2 : Reader)
    (ht : sh.type = 2 ∨ sh.type = 11)
    (h : StateT.run (symSections data shsFull [sh]) r = .ok (out, r2)) :
    out.map (fun g => g.symbols.length) =
      [jsLoopCount sh.size
        (if sh.entsize = 0 then (if r.is64 then 24 else 16) else sh.entsize)] := by
  rw [symSections, if_pos ht] at h
  obtain ⟨is64v, r1, hg, h⟩ := bind_ok_elim h
  rw [run_getIs64] at hg
  simp only [Except.ok.injEq, Prod.mk.injEq] at hg
  dsimp only at h
  obtain ⟨syms, r3, hsy, h⟩ := bind_ok_elim h
  obtain ⟨restg, r4, hrest, h⟩ := bind_ok_elim h
  rw [symSections, run_pure] at hrest
  simp only [Except.ok.injEq, Prod.mk.injEq] at hrest
  simp only [run_pure, Except.ok.injEq, Prod.mk.injEq] at h
  rw [← h.1, ← hrest.1]
  have hlen := symLoop_len _ _ _ _ _ _ _ _ _ _ hsy
  simp [hg.1, hlen]


/-- Zero-byte SYMTAB section used to witness the count formula. -/
def c7wsh : SectionHeader := ⟨0, [], 2, 0, 0, 0, 0, 0, 0, 0, 0⟩

/-- C7 witness: the amended count formula instantiated on an empty
SYMTAB section decoded against the empty buffer. -/
theorem c7_witness :
    ([⟨dotSymtab, 0, []⟩] : List SymGroup).map (fun g => g.symbols.length) =
      [jsLoopCount c7wsh.size
        (if c7wsh.entsize = 0 then
          (if (Reader.mk [] false true 0).is64 then 24 else 16)
        else c7wsh.entsize)] :=
  c7_theorem [] [] c7wsh (Reader.mk [] false true 0) [⟨dotSymtab, 0, []⟩]
    (Reader.mk [] false true 0) (Or.inl rfl) (by decide)

/-- SYMTAB section of 8 declared bytes with declared entry size zero and
an out-of-range link. -/
def c7sh : SectionHeader := ⟨0, [], 2, 0, 0, 0, 8, 5, 0, 0, 0⟩

/-- Sixteen-byte zero buffer backing the c7sh section. -/
def c7data : Buffer := List.replicate 16 0

/-- C7 counterexample: the 8-byte SYMTAB section with defaulted 32-bit
entry size 16 decodes one whole entry read from bytes 0 to 16, twice the
declared extent, while the truncating division of the claim yields zero
entries. -/
theorem c7_counterexample :
    StateT.run (symSections c7data [c7sh] [c7sh]) (Reader.mk c7data false true 0) =
      .ok ([⟨dotSymtab, 0, [⟨0, [], 0, 0, some 0, some 0, 0, 0, 16⟩]⟩],
        Reader.mk c7data false true 16) ∧
    c7sh.size / 16 = 0 := by decide

/- Claim C8. -/

/-- Shape of a successful dynamic entry loop: zero tags occur only as the
last pushed entry, a loop with no zero tag runs all n iterations, and a
loop stopping early stopped because it pushed a zero tag. -/
lemma dynLoop_spec (secOff entSize : Nat) :
    ∀ n i r ents r2,
      StateT.run (dynLoop secOff entSize n i) r = .ok (ents, r2) →
      (∀ e ∈ ents.dropLast, e.tag ≠ 0) ∧ ents.length ≤ n ∧
      ((∀ e ∈ ents, e.tag ≠ 0) → ents.length = n) ∧
      (ents.length < n → ∃ e, ents.getLast? = some e ∧ e.tag = 0) := by
  intro n
  induction n with
  | zero =>
    intro i r ents r2 h
    simp only [dynLoop, run_pure, Except.ok.injEq, Prod.mk.injEq] at h
    rw [← h.1]
    refine ⟨by simp, by simp, fun _ => rfl, by simp⟩
  | succ n ih =>
    intro i r ents r2 h
    simp only [dynLoop] at h
    obtain ⟨_, _, _, h⟩ := bind_ok_elim h
    obtain ⟨tag, _, _, h⟩ := bind_ok_elim h
    obtain ⟨val, _, _, h⟩ := bind_ok_elim h
    by_cases htag : tag = 0
    · rw [if_pos htag, run_pure] at h
      simp only [Except.ok.injEq, Prod.mk.injEq] at h
      rw [← h.1]
      refine ⟨by simp, by simp, ?_, ?_⟩
      · intro hall
        exact absurd htag (hall _ (List.mem_singleton_self _))
      · intro _
        exact ⟨_, rfl, htag⟩
    · rw [if_neg htag] at h
      obtain ⟨rest, r4, hrest, h⟩ := bind_ok_elim h
      rw [run_pure] at h
      simp only [Except.ok.injEq, Prod.mk.injEq] at h
      obtain ⟨ih1, ih2, ih3, ih4⟩ := ih _ _ _ _ hrest
      rw [← h.1]
      refine ⟨?_, by simp; omega, ?_, ?_⟩
      · intro e he
        cases rest with
        | nil => simp at he
        | cons b l =>
          rw [List.dropLast_cons₂, List.mem_cons] at he
          rcases he with rfl | he
          · exact htag
          · exact ih1 e he
      · intro hall
        have : rest.length = n :=
          ih3 (fun e he => hall e (List.mem_cons_of_mem _ he))
        simp [this]
      · intro hlt
        have hr : rest.length < n := by simp at hlt; omega
        obtain ⟨e, he1, he2⟩ := ih4 hr
        cases rest with
        | nil => cases he1
        | cons b l => exact ⟨e, by rw [List.getLast?_cons_cons]; exact he1, he2⟩

/-- C8 amended: for a DYNAMIC section with entry size defaulting to 16 or
8 bytes when undeclared, a successful decode pushes entries until it has
pushed the first zero tag (the terminator is included and nothing follows
it), and a section with no terminator enumerates ceiling(size /
entrySize) entries, the JS float loop bound allowing one final entry
whose bytes extend past the declared extent when the size is not a
multiple of the entry size. -/
theorem c8_theorem (sh : SectionHeader) (r : Reader) (ents : List DynEntry)
    (offOut : Nat) (r2 : Reader) (ht : sh.type = 6)
    (h : StateT.run (dynSections [sh] ([], 0)) r = .ok ((ents, offOut), r2)) :
    (∀ e ∈ ents.dropLast, e.tag ≠ 0) ∧
    ((∀ e ∈ ents, e.tag ≠ 0) →
      ents.length = jsLoopCount sh.size
        (if sh.entsize = 0 then (if r.is64 then 16 else 8) else sh.entsize)) ∧
    (ents.length < jsLoopCount sh.size
        (if sh.entsize = 0 then (if r.is64 then 16 else 8) else sh.entsize) →
      ∃ e, ents.getLast? = some e ∧ e.tag = 0) := by
  rw [dynSections, if_pos ht] at h
  obtain ⟨is64v, r1, hg, h⟩ := bind_ok_elim h
  rw [run_getIs64] at hg
  simp only [Except.ok.injEq, Prod.mk.injEq] at hg
  dsimp only at h
  obtain ⟨es, r3, hes, h⟩ := bind_ok_elim h
  rw [dynSections, run_pure] at h
  simp only [Except.ok.injEq, Prod.mk.injEq, List.nil_append] at h
  obtain ⟨s1, s2, s3, s4⟩ := dynLoop_spec _ _ _ _ _ _ _ hes
  rw [← h.1.1, hg.1]
  exact ⟨s1, s3, s4⟩

/-- DYNAMIC section of 24 declared bytes whose first entry already holds
the terminator tag. -/
def c8wsh : SectionHeader := ⟨0, [], 6, 0, 0, 0, 24, 0, 0, 0, 0⟩

/-- Bytes of one 32-bit dynamic entry with tag 0 and value 7. -/
def c8wdata : Buffer := [0, 0, 0, 0, 7, 0, 0, 0]

/-- C8 witness: the amended theorem applied to a section whose declared
extent admits three entries but whose first entry carries the terminator
tag; enumeration stops after pushing it. -/
theorem c8_witness :
    (∀ e ∈ ([⟨0, 7, 0, 8⟩] : List DynEntry).dropLast, e.tag ≠ 0) ∧
    ((∀ e ∈ ([⟨0, 7, 0, 8⟩] : List DynEntry), e.tag ≠ 0) →
      ([⟨0, 7, 0, 8⟩] : List DynEntry).length = jsLoopCount c8wsh.size
        (if c8wsh.entsize = 0 then
          (if (Reader.mk c8wdata false true 0).is64 then 16 else 8)
        else c8wsh.entsize)) ∧
    (([⟨0, 7, 0, 8⟩] : List DynEntry).length < jsLoopCount c8wsh.size
        (if c8wsh.entsize = 0 then
          (if (Reader.mk c8wdata false true 0).is64 then 16 else 8)
        else c8wsh.entsize) →
      ∃ e, ([⟨0, 7, 0, 8⟩] : List DynEntry).getLast? = some e ∧ e.tag = 0) :=
  c8_theorem c8wsh (Reader.mk c8wdata false true 0) [⟨0, 7, 0, 8⟩] 0
    (Reader.mk c8wdata false true 8) rfl (by decide)

/-- DYNAMIC section of 4 declared bytes with declared entry size zero. -/
def c8sh : SectionHeader := ⟨0, [], 6, 0, 0, 0, 4, 0, 0, 0, 0⟩

/-- Eight bytes holding one 32-bit dynamic entry with tag 1 and value 2
and no terminator. -/
def c8data : Buffer := [1, 0, 0, 0, 2, 0, 0, 0]

/-- C8 counterexample: the 4-byte DYNAMIC section with defaulted entry
size 8 and no terminator tag enumerates one entry, read from bytes 0 to 8
past the declared extent, while the truncating division of the claim
yields zero entries. -/
theorem c8_counterexample :
    StateT.run (dynSections [c8sh] ([], 0)) (Reader.mk c8data false true 0) =
      .ok (([⟨1, 2, 0, 8⟩], 0), Reader.mk c8data false true 8) ∧
    c8sh.size / 8 = 0 := by decide

/- Claim C9. -/

/-- STRTAB section header spanning bytes 100 to 120. -/
def c9sh : SectionHeader := ⟨0, [], 3, 0, 0, 100, 20, 0, 0, 0, 0⟩

/-- Buffer whose section bytes hold a, b, c, NUL, NUL, d, e, NUL followed
by twelve NUL bytes. -/
def c9good : Buffer :=
  List.replicate 100 0 ++ [0x61, 0x62, 0x63, 0, 0, 0x64, 0x65, 0] ++
  List.replicate 12 0

/-- Buffer whose section bytes begin with the same eight bytes but then
hold a further string x, y, NUL. -/
def c9bad : Buffer :=
  List.replicate 100 0 ++ [0x61, 0x62, 0x63, 0, 0, 0x64, 0x65, 0] ++
  [0x78, 0x79, 0] ++ List.replicate 9 0

/-- C9 counterexample: a STRTAB section spanning bytes 100 to 120 whose
content begins with a b c NUL NUL d e NUL can enumerate more than the two
claimed entries: with x y NUL following, three non-empty entries are
produced, so the claim fails for a section whose content merely begins
with those bytes. -/
theorem c9_counterexample :
    (c9bad.drop 100).take 8 = [0x61, 0x62, 0x63, 0, 0, 0x64, 0x65, 0] ∧
    strSections c9bad [c9sh] =
      [⟨[], 100, [⟨[0x61, 0x62, 0x63], 100, 4⟩, ⟨[0x64, 0x65], 105, 3⟩,
                  ⟨[0x78, 0x79], 108, 3⟩]⟩] := by decide

/-- C9 amended: a STRTAB section spanning bytes 100 to 120 whose content
is a b c NUL NUL d e NUL followed by NUL padding enumerates exactly the
two non-empty entries a b c at offset 100 with byte length 4 including
the terminator and d e at offset 105 with byte length 3, the lone NUL at
offset 104 being skipped while still consuming one byte. -/
theorem c9_theorem :
    strSections c9good [c9sh] =
      [⟨[], 100, [⟨[0x61, 0x62, 0x63], 100, 4⟩, ⟨[0x64, 0x65], 105, 3⟩]⟩] := by
  decide

/- Claim C10. -/

/-- Stability of a parsing computation: a successful run leaves the
buffer of the threaded reader unchanged.  Since every source statement
that touches the reader is translated into one of the primitives below,
stability of the whole decode states that parseElf never mutates the
input buffer. -/
def BufStable {α : Type} (m : PM α) : Prop :=
  ∀ r a r2, StateT.run m r = .ok (a, r2) → r2.buf = r.buf

/-- Pure computations keep the state. -/
lemma bs_pure {α : Type} (a : α) : BufStable (pure a : PM α) := by
  intro r b r2 h
  rw [run_pure] at h
  simp only [Except.ok.injEq, Prod.mk.injEq] at h
  rw [← h.2]

/-- Binding two stable computations is stable. -/
lemma bs_bind {α β : Type} {m : PM α} {f : α → PM β}
    (hm : BufStable m) (hf : ∀ a, BufStable (f a)) : BufStable (m >>= f) := by
  intro r b r2 h
  obtain ⟨a, r1, h1, h2⟩ := bind_ok_elim h
  rw [hf a r1 b r2 h2, hm r a r1 h1]

/-- A branch of two stable computations is stable. -/
lemma bs_ite {α : Type} {c : Prop} [Decidable c] {m1 m2 : PM α}
    (h1 : BufStable m1) (h2 : BufStable m2) : BufStable (if c then m1 else m2) := by
  by_cases h : c
  · rw [if_pos h]; exact h1
  · rw [if_neg h]; exact h2

/-- Seeking keeps the buffer. -/
lemma bs_seekPM (p : Nat) : BufStable (seekPM p) := by
  intro r a r2 h
  have h' : (Except.ok ((), r.seek p) : Except Unit (Unit × Reader)) = .ok (a, r2) := h
  simp only [Except.ok.injEq, Prod.mk.injEq] at h'
  rw [← h'.2]
  rfl

/-- The u8 read keeps the buffer. -/
lemma bs_u8PM : BufStable u8PM := by
  intro r a r2 h
  have h' : (Except.ok r.u8 : Except Unit (Option Nat × Reader)) = .ok (a, r2) := h
  rw [Reader.u8] at h'
  simp only [Except.ok.injEq, Prod.mk.injEq] at h'
  rw [← h'.2]

/-- The u16 read keeps the buffer. -/
lemma bs_u16PM : BufStable u16PM := by
  intro r a r2 h
  have h' : r.u16 = .ok (a, r2) := h
  rw [Reader.u16] at h'
  by_cases hc : r.pos + 2 ≤ r.buf.length
  · rw [if_pos hc] at h'
    simp only [Except.ok.injEq, Prod.mk.injEq] at h'
    rw [← h'.2]
  · rw [if_neg hc] at h'
    cases h'

/-- The u32 read keeps the buffer. -/
lemma bs_u32PM : BufStable u32PM := by
  intro r a r2 h
  have h' : r.u32 = .ok (a, r2) := h
  rw [Reader.u32] at h'
  by_cases hc : r.pos + 4 ≤ r.buf.length
  · rw [if_pos hc] at h'
    simp only [Except.ok.injEq, Prod.mk.injEq] at h'
    rw [← h'.2]
  · rw [if_neg hc] at h'
    cases h'

/-- The u64 read keeps the buffer. -/
lemma bs_u64PM : BufStable u64PM := by
  intro r a r2 h
  have h' : r.u64 = .ok (a, r2) := h
  rw [Reader.u64] at h'
  by_cases hc : r.pos + 8 ≤ r.buf.length
  · rw [if_pos hc] at h'
    simp only [Except.ok.injEq, Prod.mk.injEq] at h'
    rw [← h'.2]
  · rw [if_neg hc] at h'
    cases h'

/-- The address-sized read keeps the buffer. -/
lemma bs_addrPM : BufStable addrPM := by
  intro r a r2 h
  have h' : r.addr = .ok (a, r2) := h
  rw [Reader.addr] at h'
  by_cases h64 : r.is64
  · rw [if_pos h64] at h'
    exact bs_u64PM r a r2 h'
  · rw [if_neg h64] at h'
    exact bs_u32PM r a r2 h'

/-- The offset-sized read keeps the buffer. -/
lemma bs_offPM : BufStable offPM := by
  intro r a r2 h
  have h' : r.off = .ok (a, r2) := h
  rw [Reader.off] at h'
  by_cases h64 : r.is64
  · rw [if_pos h64] at h'
    exact bs_u64PM r a r2 h'
  · rw [if_neg h64] at h'
    exact bs_u32PM r a r2 h'

/-- The xword read keeps the buffer. -/
lemma bs_xwordPM : BufStable xwordPM := by
  intro r a r2 h
  have h' : r.xword = .ok (a, r2) := h
  rw [Reader.xword] at h'
  by_cases h64 : r.is64
  · rw [if_pos h64] at h'
    exact bs_u64PM r a r2 h'
  · rw [if_neg h64] at h'
    exact bs_u32PM r a r2 h'

/-- The signed read keeps the buffer. -/
lemma bs_sxwordPM : BufStable sxwordPM := by
  intro r a r2 h
  have h' : r.sxword = .ok (a, r2) := h
  rw [Reader.sxword] at h'
  by_cases h64 : r.is64
  · rw [if_pos h64] at h'
    cases hu : r.u64 with
    | error e => rw [hu] at h'; cases h'
    | ok p =>
      rw [hu] at h'
      simp only [Except.map, Except.ok.injEq, Prod.mk.injEq] at h'
      rw [← h'.2]
      exact bs_u64PM r p.1 p.2 hu
  · rw [if_neg h64] at h'
    cases hu : r.u32 with
    | error e => rw [hu] at h'; cases h'
    | ok p =>
      rw [hu] at h'
      simp only [Except.map, Except.ok.injEq, Prod.mk.injEq] at h'
      rw [← h'.2]
      exact bs_u32PM r p.1 p.2 hu

/-- Reading the configuration keeps the buffer. -/
lemma bs_getIs64 : BufStable getIs64 := by
  intro r a r2 h
  have h' : (Except.ok (r.is64, r) : Except Unit (Bool × Reader)) = .ok (a, r2) := h
  simp only [Except.ok.injEq, Prod.mk.injEq] at h'
  rw [← h'.2]

/-- The header reads keep the buffer. -/
lemma bs_readHdr : BufStable readHdr := by
  simp only [readHdr]
  repeat
    first
      | exact bs_pure _
      | exact bs_seekPM _
      | exact bs_u8PM
      | exact bs_u16PM
      | exact bs_u32PM
      | exact bs_u64PM
      | exact bs_addrPM
      | exact bs_offPM
      | exact bs_xwordPM
      | exact bs_sxwordPM
      | exact bs_getIs64
      | refine bs_ite ?_ ?_
      | refine bs_bind ?_ (fun _ => ?_)

/-- The program header loop keeps the buffer. -/
lemma bs_phLoop (phoff phentsize : Nat) : ∀ n i, BufStable (phLoop phoff phentsize n i) := by
  intro n
  induction n with
  | zero =>
    intro i
    simp only [phLoop]
    exact bs_pure _
  | succ n ih =>
    intro i
    simp only [phLoop]
    repeat
      first
        | exact bs_pure _
        | exact ih _
        | exact bs_seekPM _
        | exact bs_u8PM
        | exact bs_u16PM
        | exact bs_u32PM
        | exact bs_u64PM
        | exact bs_addrPM
        | exact bs_offPM
        | exact bs_xwordPM
        | exact bs_sxwordPM
        | exact bs_getIs64
        | refine bs_ite ?_ ?_
        | refine bs_bind ?_ (fun _ => ?_)

/-- The section header loop keeps the buffer. -/
lemma bs_shLoop (shoff shentsize : Nat) : ∀ n i, BufStable (shLoop shoff shentsize n i) := by
  intro n
  induction n with
  | zero =>
    intro i
    simp only [shLoop]
    exact bs_pure _
  | succ n ih =>
    intro i
    simp only [shLoop]
    repeat
      first
        | exact bs_pure _
        | exact ih _
        | exact bs_seekPM _
        | exact bs_u8PM
        | exact bs_u16PM
        | exact bs_u32PM
        | exact bs_u64PM
        | exact bs_addrPM
        | exact bs_offPM
        | exact bs_xwordPM
        | exact bs_sxwordPM
        | exact bs_getIs64
        | refine bs_ite ?_ ?_
        | refine bs_bind ?_ (fun _ => ?_)

/-- The symbol loop keeps the buffer. -/
lemma bs_symLoop (data : Buffer) (hasStr : Bool) (strOff secOff entSize : Nat) :
    ∀ n i, BufStable (symLoop data hasStr strOff secOff entSize n i) := by
  intro n
  induction n with
  | zero =>
    intro i
    simp only [symLoop]
    exact bs_pure _
  | succ n ih =>
    intro i
    simp only [symLoop]
    repeat
      first
        | exact bs_pure _
        | exact ih _
        | exact bs_seekPM _
        | exact bs_u8PM
        | exact bs_u16PM
        | exact bs_u32PM
        | exact bs_u64PM
        | exact bs_addrPM
        | exact bs_offPM
        | exact bs_xwordPM
        | exact bs_sxwordPM
        | exact bs_getIs64
        | refine bs_ite ?_ ?_
        | refine bs_bind ?_ (fun _ => ?_)

/-- The dynamic entry loop keeps the buffer. -/
lemma bs_dynLoop (secOff entSize : Nat) : ∀ n i, BufStable (dynLoop secOff entSize n i) := by
  intro n
  induction n with
  | zero =>
    intro i
    simp only [dynLoop]
    exact bs_pure _
  | succ n ih =>
    intro i
    simp only [dynLoop]
    repeat
      first
        | exact bs_pure _
        | exact ih _
        | exact bs_seekPM _
        | exact bs_u8PM
        | exact bs_u16PM
        | exact bs_u32PM
        | exact bs_u64PM
        | exact bs_addrPM
        | exact bs_offPM
        | exact bs_xwordPM
        | exact bs_sxwordPM
        | exact bs_getIs64
        | refine bs_ite ?_ ?_
        | refine bs_bind ?_ (fun _ => ?_)

/-- The relocation entry loop keeps the buffer. -/
lemma bs_relLoop (symSyms : Option (List ElfSymbol)) (secOff entSize : Nat)
    (isRela : Bool) : ∀ n i, BufStable (relLoop symSyms secOff entSize isRela n i) := by
  intro n
  induction n with
  | zero =>
    intro i
    simp only [relLoop]
    exact bs_pure _
  | succ n ih =>
    intro i
    simp only [relLoop]
    repeat
      first
        | exact bs_pure _
        | exact ih _
        | exact bs_seekPM _
        | exact bs_u8PM
        | exact bs_u16PM
        | exact bs_u32PM
        | exact bs_u64PM
        | exact bs_addrPM
        | exact bs_offPM
        | exact bs_xwordPM
        | exact bs_sxwordPM
        | exact bs_getIs64
        | refine bs_ite ?_ ?_
        | refine bs_bind ?_ (fun _ => ?_)

/-- The symbol tables pass keeps the buffer. -/
lemma bs_symSections (data : Buffer) (shsFull : List SectionHeader) :
    ∀ shs, BufStable (symSections data shsFull shs) := by
  intro shs
  induction shs with
  | nil =>
    simp only [symSections]
    exact bs_pure _
  | cons sh rest ih =>
    simp only [symSections]
    repeat
      first
        | exact bs_pure _
        | exact ih
        | exact bs_symLoop _ _ _ _ _ _ _
        | exact bs_getIs64
        | refine bs_ite ?_ ?_
        | refine bs_bind ?_ (fun _ => ?_)

/-- The dynamic sections pass keeps the buffer. -/
lemma bs_dynSections : ∀ shs acc, BufStable (dynSections shs acc) := by
  intro shs
  induction shs with
  | nil =>
    intro acc
    simp only [dynSections]
    exact bs_pure _
  | cons sh rest ih =>
    intro acc
    simp only [dynSections]
    repeat
      first
        | exact bs_pure _
        | exact ih _
        | exact bs_dynLoop _ _ _ _
        | exact bs_getIs64
        | refine bs_ite ?_ ?_
        | refine bs_bind ?_ (fun _ => ?_)

/-- The relocation sections pass keeps the buffer. -/
lemma bs_relSections (shsFull : List SectionHeader) (symGroups : List SymGroup) :
    ∀ shs, BufStable (relSections shsFull symGroups shs) := by
  intro shs
  induction shs with
  | nil =>
    simp only [relSections]
    exact bs_pure _
  | cons sh rest ih =>
    simp only [relSections]
    repeat
      first
        | exact bs_pure _
        | exact ih
        | exact bs_relLoop _ _ _ _ _ _
        | exact bs_getIs64
        | refine bs_ite ?_ ?_
        | refine bs_bind ?_ (fun _ => ?_)

/-- The whole decode keeps the buffer. -/
lemma bs_parseMain (data : Buffer) (elfClass elfData : Nat) :
    BufStable (parseMain data elfClass elfData) := by
  simp only [parseMain]
  repeat
    first
      | exact bs_pure _
      | exact bs_readHdr
      | exact bs_phLoop _ _ _ _
      | exact bs_shLoop _ _ _ _
      | exact bs_symSections _ _ _
      | exact bs_dynSections _ _
      | exact bs_relSections _ _ _
      | refine bs_ite ?_ ?_
      | refine bs_bind ?_ (fun _ => ?_)

/-- C10: decoding never mutates the buffer: a successful parseBody run
finishes with the reader still holding the input buffer, all reads being
read-only primitives; the values of the model are built from read
results and copied strings. -/
theorem c10_theorem (data : Buffer) (f : ElfFile) (r2 : Reader)
    (h : parseBody data = .ok (f, r2)) : r2.buf = data := by
  rw [parseBody] at h
  exact bs_parseMain data (data.getD 4 0) (data.getD 5 0)
    (Reader.mk data ((data.getD 4 0) == 2) ((data.getD 5 0) == 1) 0) f r2 h

/-- C10 witness: the successful decode of c1buf finishes with its buffer
unchanged. -/
theorem c10_witness :
    (parseBody c1buf).toOption.map (fun p => p.2.buf) = some c1buf := by
  have hp := c1_body
  rw [hp]
  exact congrArg some (c10_theorem c1buf c1file (Reader.mk c1buf false true 52) hp)
